import Mathlib

/-!
Verification of the RSS monitor worker (`src/index.js`).

Strings are modelled as `List Char` (`Str`).  JavaScript string operations used
by the worker (split, trim, regex-based scanning and replacement) are embedded
as executable functions on `Str`.  External platform services (the key-value
store, the HTTP fetches, `new Date` parsing, `btoa`) are modelled as explicit
parameters or `Except`-valued inputs.  The unbounded recursive delivery call is
modelled with an explicit fuel argument that is consumed exactly at the
recursive self-call, so a result of `none` for every fuel value corresponds to
divergence of the original code.
-/

namespace RSSWorker

abbrev Str := List Char

/-- Configuration constant `SAFE_MESSAGE_LENGTH` from `CONFIG`. -/
def SAFE_MESSAGE_LENGTH : Nat := 3800

/-- Whitespace test matching the JavaScript `\s` class on the ASCII range
(space, tab, line feed, carriage return, vertical tab, form feed). -/
def isWs (c : Char) : Bool :=
  c = ' ' || c = '\t' || c = '\n' || c = '\r' || c = '\x0b' || c = '\x0c'

/-- JavaScript `String.prototype.trim`: drop whitespace from both ends. -/
def jsTrim (s : Str) : Str :=
  ((s.dropWhile isWs).reverse.dropWhile isWs).reverse

/-- The non-whitespace characters of a string, in order. -/
def stripWs (s : Str) : Str := s.filter (fun c => !isWs c)

/-- Sentence-terminating punctuation class `[.!?]`. -/
def isPunct (c : Char) : Bool := c = '.' || c = '!' || c = '?'

/-- `text.split('\n\n')`: leftmost, non-overlapping split on a blank line. -/
def splitParagraphs (s : Str) : List Str :=
  go [] s
where
  go : Str → Str → List Str
    | acc, '\n' :: '\n' :: rest => acc.reverse :: go [] rest
    | acc, c :: rest => go (c :: acc) rest
    | acc, [] => [acc.reverse]

/-- Scanner mode for `paragraph.split(/[.!?]+\s+/)`: either plain scanning,
inside a run of `[.!?]`, or consuming the whitespace tail of a separator. -/
inductive SentMode where
  | plain
  | punct (pend : Str)
  | ws
deriving DecidableEq

/-- `paragraph.split(/[.!?]+\s+/)`: a separator is a maximal run of `[.!?]`
immediately followed by at least one whitespace character, together with the
maximal whitespace run after it. -/
def splitSentences (s : Str) : List Str :=
  go .plain [] s
where
  go : SentMode → Str → Str → List Str
    | .plain, acc, [] => [acc.reverse]
    | .plain, acc, c :: rest =>
      if isPunct c then go (.punct [c]) acc rest
      else go .plain (c :: acc) rest
    | .punct pend, acc, [] => [(pend ++ acc).reverse]
    | .punct pend, acc, c :: rest =>
      if isPunct c then go (.punct (c :: pend)) acc rest
      else if isWs c then acc.reverse :: go .ws [] rest
      else go .plain (c :: (pend ++ acc)) rest
    | .ws, acc, [] => [acc.reverse]
    | .ws, acc, c :: rest =>
      if isWs c then go .ws acc rest
      else if isPunct c then go (.punct [c]) acc rest
      else go .plain (c :: acc) rest

/-- `sentence.match(/[.!?]$/)`: the string ends with sentence punctuation. -/
def endsWithPunct (s : Str) : Bool :=
  match s.getLast? with
  | some c => isPunct c
  | none => false

/-- The mutable state of the `splitMessageSmart` loop: the flushed `messages`
array and the running `currentMessage` buffer. -/
structure SplitState where
  messages : List Str
  current : Str
deriving DecidableEq

/-- One iteration of the inner sentence loop of `splitMessageSmart`. -/
def procSentence (maxLength : Nat) (st : SplitState) (sentence : Str) : SplitState :=
  if (jsTrim sentence).isEmpty then st
  else
    let swp := sentence ++ (if endsWithPunct sentence then [] else ['.'])
    if (st.current ++ swp).length > maxLength then
      if !(jsTrim st.current).isEmpty then
        { messages := st.messages ++ [jsTrim st.current], current := swp }
      else
        { messages := st.messages ++ [sentence.take (maxLength - 3) ++ ['.', '.', '.']],
          current := st.current }
    else
      { st with current := st.current ++ (if st.current.isEmpty then [] else [' ']) ++ swp }

/-- One iteration of the outer paragraph loop of `splitMessageSmart`. -/
def procParagraph (maxLength : Nat) (st : SplitState) (p : Str) : SplitState :=
  if p.length > maxLength then
    (splitSentences p).foldl (procSentence maxLength) st
  else
    if (st.current ++ '\n' :: '\n' :: p).length > maxLength then
      if !(jsTrim st.current).isEmpty then
        { messages := st.messages ++ [jsTrim st.current], current := p }
      else
        { messages := st.messages ++ [p], current := st.current }
    else
      { st with
        current := st.current ++ (if st.current.isEmpty then [] else ['\n', '\n']) ++ p }

/-- The final flush of `splitMessageSmart`: push the trimmed buffer when it
is not blank. -/
def finalMessages (st : SplitState) : List Str :=
  if !(jsTrim st.current).isEmpty then st.messages ++ [jsTrim st.current]
  else st.messages

/-- The non-whitespace content held by a split state: flushed messages
followed by the running buffer. -/
def stripContent (st : SplitState) : Str :=
  stripWs st.messages.flatten ++ stripWs st.current

/-- `splitMessageSmart(text, maxLength)` from `src/index.js`. -/
def splitMessageSmart (text : Str) (maxLength : Nat) : List Str :=
  if text.length ≤ maxLength then [text]
  else
    (finalMessages
      ((splitParagraphs text).foldl (procParagraph maxLength) ⟨[], []⟩)).filter
      (fun m => !(jsTrim m).isEmpty)

/-! ## HTML entity decoding (`decodeHTMLEntities`) -/

/-- Character class `[#\w]` of the entity regex `/&[#\w]+;/`. -/
def isEntChar (c : Char) : Bool :=
  c = '#' || ('a' ≤ c && c ≤ 'z') || ('A' ≤ c && c ≤ 'Z') ||
  ('0' ≤ c && c ≤ '9') || c = '_'

/-- The seven-entry `entities` table of `decodeHTMLEntities`. -/
def entityTable : List (Str × Char) :=
  [("&amp;".toList, '&'), ("&lt;".toList, '<'), ("&gt;".toList, '>'),
   ("&quot;".toList, '"'), ("&#39;".toList, '\''), ("&apos;".toList, '\''),
   ("&nbsp;".toList, ' ')]

/-- `entities[entity] || entity`: a matched entity token is replaced by its
mapped character, or kept verbatim when it has no table entry. -/
def entityLookup (tok : Str) : Str :=
  match entityTable.lookup tok with
  | some c => [c]
  | none => tok

/-- `text.replace(/&[#\w]+;/g, entity => entities[entity] || entity)`.
The scanner mode `some pend` means the scanner sits after an `&` with the
(reversed) run `pend` of `[#\w]` characters read so far; a `;` then closes a
maximal entity token, anything else abandons the attempt and keeps the
characters verbatim.  Total by construction (the source cannot throw). -/
def decodeHTMLEntities (s : Str) : Str :=
  go none s
where
  go : Option Str → Str → Str
    | none, [] => []
    | none, c :: rest => if c = '&' then go (some []) rest else c :: go none rest
    | some pend, [] => '&' :: pend.reverse
    | some pend, c :: rest =>
      if isEntChar c then go (some (c :: pend)) rest
      else if c = ';' && !pend.isEmpty then
        entityLookup ('&' :: (pend.reverse ++ [';'])) ++ go none rest
      else if c = '&' then ('&' :: pend.reverse) ++ go (some []) rest
      else ('&' :: pend.reverse) ++ (c :: go none rest)

/-- A token of the entity scan: either a verbatim character or a maximal
entity candidate `&name;` with `name` a nonempty `[#\w]` run. -/
inductive EntTok where
  | plain (c : Char)
  | ent (name : Str)
deriving DecidableEq

/-- The characters of the input a token covers. -/
def tokSource : EntTok → Str
  | .plain c => [c]
  | .ent name => '&' :: (name ++ [';'])

/-- The characters a token contributes to the output of the replacement. -/
def tokRender : EntTok → Str
  | .plain c => [c]
  | .ent name => entityLookup ('&' :: (name ++ [';']))

/-- The tokenization performed by the scan of `decodeHTMLEntities`. -/
def entityTokens (s : Str) : List EntTok :=
  go none s
where
  go : Option Str → Str → List EntTok
    | none, [] => []
    | none, c :: rest =>
      if c = '&' then go (some []) rest else .plain c :: go none rest
    | some pend, [] => .plain '&' :: pend.reverse.map .plain
    | some pend, c :: rest =>
      if isEntChar c then go (some (c :: pend)) rest
      else if c = ';' && !pend.isEmpty then
        .ent pend.reverse :: go none rest
      else if c = '&' then
        (.plain '&' :: pend.reverse.map .plain) ++ go (some []) rest
      else (.plain '&' :: pend.reverse.map .plain) ++ (.plain c :: go none rest)

/-- The input characters already consumed but not yet emitted in a scanner
mode: nothing in plain mode, the `&` and the pending run inside an entity. -/
def pendPrefix : Option Str → Str
  | none => []
  | some pend => '&' :: pend.reverse

/-- Well-formedness of an entity-scan token: an entity candidate has a
nonempty `[#\w]` run as its name. -/
def entTokWF : EntTok → Prop
  | .plain _ => True
  | .ent name => name ≠ [] ∧ ∀ c ∈ name, isEntChar c = true

/-! ## Feed parsing (`parseRSSItems` and helpers) -/

/-- ASCII lower-casing, used to model the regex `i` flag and
`String.prototype.toLowerCase` on the relevant ASCII tokens. -/
def toLowerAscii (c : Char) : Char :=
  if 'A' ≤ c && c ≤ 'Z' then Char.ofNat (c.toNat + 32) else c

/-- Case-insensitive "starts with". -/
def ciStartsWith (pat s : Str) : Bool :=
  (pat.map toLowerAscii).isPrefixOf (s.map toLowerAscii)

/-- Index of the first case-insensitive occurrence of `pat` in `s`. -/
def findCI (pat : Str) : Str → Option Nat
  | [] => if ciStartsWith pat [] then some 0 else none
  | c :: t => if ciStartsWith pat (c :: t) then some 0 else (findCI pat t).map (· + 1)

/-- Index of the first case-sensitive occurrence of `pat` in `s`. -/
def findCS (pat : Str) : Str → Option Nat
  | [] => if pat.isPrefixOf ([] : Str) then some 0 else none
  | c :: t => if pat.isPrefixOf (c :: t) then some 0 else (findCS pat t).map (· + 1)

/-- Global matching of `/<item[\s\S]*?<\/item>/gi` (and the `entry` variant):
at each position where the opening literal matches case-insensitively, the
lazy filler extends to the earliest closing literal; matching resumes after
the match.  The fuel argument is instantiated with the input length, which
bounds the scan since every step consumes at least one character. -/
def blockScanF (opn cls : Str) : Nat → Str → List Str
  | 0, _ => []
  | _fuel + 1, [] => []
  | fuel + 1, c :: t =>
    if ciStartsWith opn (c :: t) then
      match findCI cls ((c :: t).drop opn.length) with
      | some j =>
        ((c :: t).take (opn.length + j + cls.length)) ::
          blockScanF opn cls fuel ((c :: t).drop (opn.length + j + cls.length))
      | none => blockScanF opn cls fuel t
    else blockScanF opn cls fuel t

/-- `xmlText.match(/<item[\s\S]*?<\/item>/gi) || xmlText.match(/<entry[\s\S]*?<\/entry>/gi)`. -/
def itemBlocks (xml : Str) : List Str :=
  let rss := blockScanF ("<item".toList) ("</item>".toList) xml.length xml
  if rss.isEmpty then blockScanF ("<entry".toList) ("</entry>".toList) xml.length xml
  else rss

/-- First match of `` `<${tag}[^>]*>(.*?)<\/${tag}>` `` with flags `is`,
returning the captured group. -/
def tagScan (tag : Str) : Str → Option Str
  | [] => none
  | c :: t =>
    if ciStartsWith ('<' :: tag) (c :: t) then
      let afterOpen := (c :: t).drop (tag.length + 1)
      let run := afterOpen.takeWhile (· ≠ '>')
      match afterOpen.drop run.length with
      | '>' :: body =>
        match findCI ('<' :: '/' :: (tag ++ ['>'])) body with
        | some j => some (body.take j)
        | none => tagScan tag t
      | _ => tagScan tag t
    else tagScan tag t

/-- `content.replace(/<!\[CDATA\[(.*?)\]\]>/gs, '$1')`. -/
def cdataStripF : Nat → Str → Str
  | 0, s => s
  | _fuel + 1, [] => []
  | fuel + 1, c :: t =>
    if ("<![CDATA[".toList).isPrefixOf (c :: t) then
      match findCS ("]]>".toList) ((c :: t).drop 9) with
      | some j =>
        (((c :: t).drop 9).take j) ++ cdataStripF fuel ((c :: t).drop (9 + j + 3))
      | none => c :: cdataStripF fuel t
    else c :: cdataStripF fuel t

/-- CDATA unwrapping with sufficient fuel. -/
def cdataStrip (s : Str) : Str := cdataStripF s.length s

/-- `html.replace(/<[^>]*>/g, ...)`: removes every `<`-to-`>` span (the span
itself may contain further `<`); a `<` with no later `>` is kept. -/
def stripTagsF : Nat → Str → Str
  | 0, s => s
  | _fuel + 1, [] => []
  | fuel + 1, c :: t =>
    if c = '<' then
      match t.drop (t.takeWhile (· ≠ '>')).length with
      | '>' :: rest => stripTagsF fuel rest
      | _ => c :: stripTagsF fuel t
    else c :: stripTagsF fuel t

/-- Tag stripping with sufficient fuel. -/
def stripTags (s : Str) : Str := stripTagsF s.length s

/-- The candidate `href="..."` capture inside the attribute region following
an opening `<link`: the regex `<link[^>]*href="([^"]*)"` backtracks the
greedy `[^>]*`, so the last `href="` before the first `>` that is followed by
a closing quote wins. -/
def hrefFromAttrs (afterOpen : Str) : Option Str :=
  let region := afterOpen.takeWhile (· ≠ '>')
  tryCands afterOpen
    (((List.range region.length).filter
      (fun j => ciStartsWith ("href=\"".toList) (afterOpen.drop j))).reverse)
where
  tryCands (afterOpen : Str) : List Nat → Option Str
    | [] => none
    | j :: rest =>
      let v := (afterOpen.drop (j + 6)).takeWhile (· ≠ '"')
      if v.length < (afterOpen.drop (j + 6)).length then some v
      else tryCands afterOpen rest

/-- First match of `` `<link[^>]*href="([^"]*)"` `` (case-insensitive) in the
whole item block. -/
def hrefScan : Str → Option Str
  | [] => none
  | c :: t =>
    if ciStartsWith ("<link".toList) (c :: t) then
      match hrefFromAttrs ((c :: t).drop 5) with
      | some v => some v
      | none => hrefScan t
    else hrefScan t

/-- `extractXMLContent(xml, tag)`: first tag match, CDATA unwrapping, the
`href` fallback for empty `link` bodies, tag stripping, entity decoding and
trimming.  `none` models the JavaScript `null`. -/
def extractXMLContent (xml : Str) (tag : Str) : Option Str :=
  match tagScan tag xml with
  | none => none
  | some raw =>
    let c1 := cdataStrip raw
    let c2 :=
      if tag = "link".toList && (jsTrim c1).isEmpty then
        match hrefScan xml with
        | some h => h
        | none => c1
      else c1
    some (jsTrim (decodeHTMLEntities (stripTags c2)))

/-- JavaScript `a || b` on nullable strings: the empty string is falsy. -/
def jsOr (a b : Option Str) : Option Str :=
  match a with
  | some t => if t.isEmpty then b else some t
  | none => b

/-- The normalized feed item record produced by `parseRSSItem`. -/
structure RSSItem where
  title : Option Str := none
  link : Option Str := none
  description : Option Str := none
  pubDate : Option Str := none
  guid : Option Str := none
  author : Option Str := none
deriving DecidableEq

/-- `parseRSSItem(itemXml)`. -/
def parseRSSItem (itemXml : Str) : RSSItem :=
  { title := extractXMLContent itemXml ("title".toList)
    link := extractXMLContent itemXml ("link".toList)
    description :=
      jsOr (extractXMLContent itemXml ("description".toList))
        (jsOr (extractXMLContent itemXml ("summary".toList))
          (extractXMLContent itemXml ("content".toList)))
    pubDate :=
      jsOr (extractXMLContent itemXml ("pubDate".toList))
        (jsOr (extractXMLContent itemXml ("published".toList))
          (extractXMLContent itemXml ("updated".toList)))
    guid :=
      jsOr (extractXMLContent itemXml ("guid".toList))
        (extractXMLContent itemXml ("id".toList))
    author :=
      jsOr (extractXMLContent itemXml ("author".toList))
        (extractXMLContent itemXml ("creator".toList)) }

/-- The `if (item && item.title)` filter: `parseRSSItem` always yields an
object, so the condition is truthiness of `title` (non-null, nonempty). -/
def titleTruthy (it : RSSItem) : Bool :=
  match it.title with
  | some t => !t.isEmpty
  | none => false

/-- The sort key `new Date(x.pubDate || 0)` of the comparator, with date
parsing abstracted as an oracle `parseDate` (an epoch-milliseconds value);
a missing or empty `pubDate` is the epoch itself. -/
def itemKey (parseDate : Str → Int) (it : RSSItem) : Int :=
  match it.pubDate with
  | none => 0
  | some s => if s.isEmpty then 0 else parseDate s

/-- `parseRSSItems(xmlText)`: extract item blocks, parse each, keep the ones
with a truthy title, and stable-sort by descending parsed date (JavaScript
`Array.prototype.sort` is a stable sort and the comparator `dateB - dateA`
is consistent, so the result is the stable descending order). -/
def parseRSSItems (parseDate : Str → Int) (xml : Str) : List RSSItem :=
  (((itemBlocks xml).map parseRSSItem).filter titleTruthy).mergeSort
    (fun a b => decide (itemKey parseDate b ≤ itemKey parseDate a))

/-! ## Gemini response handling (`extractGeminiContent`, retry, strategies) -/

/-- The `GeminiError` codes used by the rewrite flow, plus the code standing
for a thrown content-extraction failure. -/
inductive GeminiCode where
  | NO_CANDIDATES
  | NO_CONTENT
  | URL_CONTEXT_FAIL
  | HTML_CONTENT_FAIL
  | API_ERROR
  | EXTRACTION_ERROR
deriving DecidableEq

/-- One `parts` element of a Gemini candidate. -/
structure GPart where
  text : Str
deriving DecidableEq

/-- The `content` object of a Gemini candidate; a missing or empty `parts`
array is the empty list. -/
structure GContent where
  parts : List GPart
deriving DecidableEq

/-- One Gemini candidate; `content := none` models a missing `content`. -/
structure GCandidate where
  content : Option GContent
deriving DecidableEq

/-- A parsed Gemini response body; a missing or empty `candidates` array is
the empty list. -/
structure GemResponse where
  candidates : List GCandidate
deriving DecidableEq

/-- Occurrence of `pat` as a contiguous substring. -/
def hasSub (pat : Str) : Str → Bool
  | [] => pat.isEmpty
  | c :: t => pat.isPrefixOf (c :: t) || hasSub pat t

/-- `s.toLowerCase().includes(pat)` (case-insensitive containment). -/
def containsCI (s pat : Str) : Bool :=
  hasSub (pat.map toLowerAscii) (s.map toLowerAscii)

/-- The URL-context failure sentinel `###error1###`. -/
def sentinel1 : Str := "###error1###".toList

/-- The embedded-HTML failure sentinel `###error2###`. -/
def sentinel2 : Str := "###error2###".toList

/-- `extractGeminiContent(res)` on the parsed response body. -/
def extractGeminiContent (r : GemResponse) : Except GeminiCode Str :=
  match r.candidates with
  | [] => .error .NO_CANDIDATES
  | cand :: _ =>
    match cand.content with
    | none => .error .NO_CONTENT
    | some content =>
      match content.parts with
      | [] => .error .NO_CONTENT
      | part :: _ =>
        if containsCI part.text sentinel1 then .error .URL_CONTEXT_FAIL
        else if containsCI part.text sentinel2 then .error .HTML_CONTENT_FAIL
        else .ok part.text

/-- `makeGeminiRequest`: a non-OK HTTP exchange raises `API_ERROR`, an OK
exchange parses the body with `extractGeminiContent`.  The network exchange
is an `Except`-valued oracle. -/
def makeGeminiRequest (fetchResult : Except Str GemResponse) : Except GeminiCode Str :=
  match fetchResult with
  | .error _ => .error .API_ERROR
  | .ok r => extractGeminiContent r

/-- `retryOperation`: first successful attempt wins, otherwise the last
error propagates. -/
def retryOperation (attempts : List (Except GeminiCode Str)) : Except GeminiCode Str :=
  match attempts with
  | [] => .error .API_ERROR
  | [a] => a
  | a :: b :: rest =>
    match a with
    | .ok v => .ok v
    | .error _ => retryOperation (b :: rest)

/-- `makeGeminiRequestWithRetry` over the per-attempt exchange outcomes. -/
def makeGeminiRequestWithRetry (fetches : List (Except Str GemResponse)) :
    Except GeminiCode Str :=
  retryOperation (fetches.map makeGeminiRequest)

/-- The two-strategy rewrite of `processRSSItem` (lines 392–408): the
URL-context strategy, and on any failure the extraction fallback, whose
article-fetch failure is itself a failure of the whole rewrite. -/
def rewriteContent (urlFetches : List (Except Str GemResponse))
    (extractionResult : Except Str Str)
    (fallbackFetches : List (Except Str GemResponse)) : Except GeminiCode Str :=
  match makeGeminiRequestWithRetry urlFetches with
  | .ok c => .ok c
  | .error _ =>
    match extractionResult with
    | .error _ => .error .EXTRACTION_ERROR
    | .ok _article => makeGeminiRequestWithRetry fallbackFetches

/-! ## Telegram delivery (`sendToTelegramWithRateLimit`) -/

/-- Outcome of one `sendMessage` HTTP exchange: OK response, non-OK response
(`is429` tells whether the status was 429), or a thrown error. -/
inductive TOutcome where
  | ok
  | failed (is429 : Bool)
  | thrown
deriving DecidableEq

/-- The `status` field of one per-chunk report entry. -/
inductive SendStatus where
  | success
  | failed
  | error
deriving DecidableEq

/-- One entry of the `results` array of `sendToTelegramWithRateLimit`. -/
structure DeliveryReport where
  message_index : Nat
  status : SendStatus
deriving DecidableEq

/-- Global literal replacement `s.replace(/pat/g, rep)` for a fixed literal
pattern, fuel-bounded by the input length. -/
def replaceAllF (pat rep : Str) : Nat → Str → Str
  | 0, s => s
  | _fuel + 1, [] => []
  | fuel + 1, c :: t =>
    if pat.isPrefixOf (c :: t) then
      rep ++ replaceAllF pat rep fuel ((c :: t).drop pat.length)
    else c :: replaceAllF pat rep fuel t

/-- Global literal replacement with sufficient fuel. -/
def replaceAll (pat rep s : Str) : Str := replaceAllF pat rep s.length s

/-- `cleanHtmlForDisplay(html)`: strip tags, decode five entities in the
source's sequential order, trim. -/
def cleanHtmlForDisplay (html : Str) : Str :=
  jsTrim (replaceAll ("&quot;".toList) ['"']
    (replaceAll ("&gt;".toList) ['>']
      (replaceAll ("&lt;".toList) ['<']
        (replaceAll ("&amp;".toList) ['&']
          (replaceAll ("&nbsp;".toList) [' '] (stripTags html))))))

/-- The per-chunk loop of `sendToTelegramWithRateLimit`.  `fallback` is the
recursive plain-text resend of the whole batch performed on any non-OK
response (its report list is discarded, but it consumes further outcomes);
`oc` is the stream of HTTP outcomes and `k` the next outcome index. -/
def sendLoop (fallback : Nat → Option (List DeliveryReport × Nat))
    (oc : Nat → TOutcome) :
    List Str → Nat → Nat → Option (List DeliveryReport × Nat)
  | [], _i, k => some ([], k)
  | _m :: rest, i, k =>
    match oc k with
    | .ok =>
      match sendLoop fallback oc rest (i + 1) (k + 1) with
      | none => none
      | some (rs, kf) => some (⟨i, .success⟩ :: rs, kf)
    | .thrown =>
      match sendLoop fallback oc rest (i + 1) (k + 1) with
      | none => none
      | some (rs, kf) => some (⟨i, .error⟩ :: rs, kf)
    | .failed _ =>
      match fallback (k + 1) with
      | none => none
      | some (_discarded, kMid) =>
        match sendLoop fallback oc rest (i + 1) kMid with
        | none => none
        | some (rs, kf) => some (⟨i, .failed⟩ :: rs, kf)

/-- `sendToTelegramWithRateLimit(botToken, chatId, messages, ...)`.  The
fuel argument is consumed exactly at the unguarded recursive plain-text
fallback call, so `none` for every fuel value means the original code
never terminates on those outcomes. -/
def sendToTelegramWithRateLimit (oc : Nat → TOutcome) :
    Nat → List Str → Nat → Option (List DeliveryReport × Nat)
  | 0, _msgs, _k => none
  | fuel + 1, msgs, k =>
    sendLoop (fun kr => sendToTelegramWithRateLimit oc fuel
      (msgs.map cleanHtmlForDisplay) kr) oc msgs 0 k

/-- An outcome stream on which every `sendMessage` exchange yields a non-OK
response. -/
def alwaysFailing : Nat → TOutcome := fun _ => .failed false

/-- Divergence of the delivery call on a batch and outcome stream: no fuel
bound on the recursive plain-text fallback lets the call return, i.e. the
original unbounded recursion never terminates. -/
def deliveryDiverges (msgs : List Str) (oc : Nat → TOutcome) : Prop :=
  ∀ fuel k, sendToTelegramWithRateLimit oc fuel msgs k = none

/-! ## Cycle control (`handleRSSCheck`, `processRSSItem`, dedup store) -/

/-- The JSON value stored under `processed_item_<itemId>`. -/
structure StoredRecord where
  processed_at : Str
  item_id : Str
  gemini_output : Option Str
deriving DecidableEq

/-- The record returned by `isItemNew`. -/
structure IsNewResult where
  isNew : Bool
  gemini_output : Option Str
deriving DecidableEq

/-- The literal `'not available'`. -/
def notAvailable : Str := "not available".toList

/-- `isItemNew(itemId, env)`: the key-value read is an `Except`-valued
oracle; a read failure is caught and reported as `isNew = true` with a null
output (fail open), a missing key as new, a present record as seen. -/
def isItemNew (read : Except Str (Option StoredRecord)) : IsNewResult :=
  match read with
  | .error _ => { isNew := true, gemini_output := none }
  | .ok none => { isNew := true, gemini_output := some notAvailable }
  | .ok (some rec) =>
    { isNew := false
      gemini_output := some (match rec.gemini_output with
        | some g => if g.isEmpty then notAvailable else g
        | none => notAvailable) }

/-- ASCII alphanumeric class of `/[^a-zA-Z0-9]/g`. -/
def isAlnumAscii (c : Char) : Bool :=
  ('a' ≤ c && c ≤ 'z') || ('A' ≤ c && c ≤ 'Z') || ('0' ≤ c && c ≤ '9')

/-- `generateItemId(item)`: base64 (`btoa`, an external platform primitive,
abstracted as an oracle) of the first 100 characters of title+description,
restricted to alphanumerics. -/
def generateItemId (btoaLike : Str → Str) (item : RSSItem) : Str :=
  (btoaLike (((item.title.getD []) ++ (item.description.getD [])).take 100)).filter
    isAlnumAscii

/-- JavaScript truthiness of a nullable string. -/
def truthyStr : Option Str → Option Str
  | some t => if t.isEmpty then none else some t
  | none => none

/-- `latestItem.guid || latestItem.link || generateItemId(latestItem)`. -/
def deriveItemId (btoaLike : Str → Str) (item : RSSItem) : Str :=
  match truthyStr item.guid with
  | some g => g
  | none =>
    match truthyStr item.link with
    | some l => l
    | none => generateItemId btoaLike item

/-- The dedup store, abstracted as an association list from keys to records. -/
abbrev Store := List (Str × StoredRecord)

/-- The storage key `processed_item_<itemId>`. -/
def storeKey (itemId : Str) : Str := "processed_item_".toList ++ itemId

/-- `markItemAsProcessed(itemId, result, env)`: a failing put is caught and
swallowed, leaving the store unchanged. -/
def markItemAsProcessed (now : Str) (itemId : Str) (output : Option Str)
    (writeFails : Bool) (store : Store) : Store :=
  if writeFails then store
  else
    (storeKey itemId,
      { processed_at := now
        item_id := itemId
        gemini_output := some (match output with
          | some g => if g.isEmpty then notAvailable else g
          | none => notAvailable) }) :: store

/-- `validateRSSItem(item)` as a boolean: nonempty trimmed title, nonempty
trimmed link, and a well-formed URL (`new URL`, abstracted as an oracle). -/
def validateRSSItem (urlValid : Str → Bool) (it : RSSItem) : Bool :=
  (match it.title with
   | some t => !(jsTrim t).isEmpty
   | none => false) &&
  (match it.link with
   | some l => !(jsTrim l).isEmpty && urlValid l
   | none => false)

/-- The leading code-fence literal. -/
def fenceOpen : Str := "```html".toList

/-- The trailing code-fence literal. -/
def fenceClose : Str := "```".toList

/-- `processedOutput.replace(/^```html\n?/, '')` under its `startsWith` guard. -/
def stripFenceOpen (s : Str) : Str :=
  match s.drop 7 with
  | '\n' :: rest => rest
  | r => r

/-- `processedOutput.replace(/\n?```$/, '')` under its `endsWith` guard. -/
def stripFenceClose (s : Str) : Str :=
  let t := s.take (s.length - 3)
  match t.getLast? with
  | some '\n' => t.take (t.length - 1)
  | _ => t

/-- `processContent(content).messages`: fence stripping, trimming and smart
splitting at the safe length. -/
def processContent (content : Str) : List Str :=
  let p0 := jsTrim content
  let p1 := if fenceOpen.isPrefixOf p0 then stripFenceOpen p0 else p0
  let p2 := if fenceClose.isSuffixOf p1 then stripFenceClose p1 else p1
  splitMessageSmart (jsTrim p2) SAFE_MESSAGE_LENGTH

/-- The cycle-level result of `processRSSItem`: `status` is true for
`'success'`.  The Telegraph side channel is disabled (no access token); its
failures are swallowed and never affect the status in any case. -/
structure ProcResult where
  status : Bool
  telegram_results : Option (List DeliveryReport) := none
  gemini_output : Option Str := none
deriving DecidableEq

/-- `processRSSItem(item, env)`: validation, two-strategy rewrite, content
processing and delivery; every thrown error is caught and turned into an
error result.  `none` models divergence of the delivery call. -/
def processRSSItem (urlValid : Str → Bool) (item : RSSItem)
    (urlFetches : List (Except Str GemResponse))
    (extractionResult : Except Str Str)
    (fallbackFetches : List (Except Str GemResponse))
    (oc : Nat → TOutcome) (fuel : Nat) : Option ProcResult :=
  if !validateRSSItem urlValid item then some { status := false }
  else
    match rewriteContent urlFetches extractionResult fallbackFetches with
    | .error _ => some { status := false }
    | .ok content =>
      match sendToTelegramWithRateLimit oc fuel (processContent content) 0 with
      | none => none
      | some (reports, _) =>
        some { status := true
               telegram_results := some reports
               gemini_output := some content }

/-- The JSON message of one `handleRSSCheck` run. -/
inductive CycleMessage where
  | noItems
  | alreadyProcessed (content : Option Str)
  | processed (result : ProcResult)
deriving DecidableEq

/-- The core of `handleRSSCheck(env)` (lines 151–203): fetch the newest item
(given as an oracle), derive its id, consult the dedup store, process a new
item, and mark it processed only when the result status is `'success'`.
`none` models divergence of the delivery call. -/
def handleRSSCheck (btoaLike : Str → Str) (now : Str)
    (latestItem : Option RSSItem) (readFails writeFails : Bool)
    (urlValid : Str → Bool)
    (urlFetches : List (Except Str GemResponse))
    (extractionResult : Except Str Str)
    (fallbackFetches : List (Except Str GemResponse))
    (oc : Nat → TOutcome) (fuel : Nat)
    (store : Store) : Option (CycleMessage × Store) :=
  match latestItem with
  | none => some (.noItems, store)
  | some item =>
    let itemId := deriveItemId btoaLike item
    let read : Except Str (Option StoredRecord) :=
      if readFails then .error ("kv unavailable".toList)
      else .ok (store.lookup (storeKey itemId))
    let res := isItemNew read
    if !res.isNew then some (.alreadyProcessed res.gemini_output, store)
    else
      match processRSSItem urlValid item urlFetches extractionResult
          fallbackFetches oc fuel with
      | none => none
      | some result =>
        some (.processed result,
          if result.status then
            markItemAsProcessed now itemId result.gemini_output writeFails store
          else store)

/-! ## Shared lemmas -/

theorem dropWhile_length_le (p : Char → Bool) (l : Str) :
    (l.dropWhile p).length ≤ l.length := by
  induction l with
  | nil => simp
  | cons c t ih =>
    by_cases h : p c
    · simp only [List.dropWhile_cons, h, if_true, List.length_cons]
      omega
    · simp [List.dropWhile_cons, h]

theorem jsTrim_length_le (s : Str) : (jsTrim s).length ≤ s.length := by
  unfold jsTrim
  calc ((s.dropWhile isWs).reverse.dropWhile isWs).reverse.length
      = ((s.dropWhile isWs).reverse.dropWhile isWs).length := List.length_reverse _
    _ ≤ (s.dropWhile isWs).reverse.length := dropWhile_length_le _ _
    _ = (s.dropWhile isWs).length := List.length_reverse _
    _ ≤ s.length := dropWhile_length_le _ _

theorem stripWs_append (a b : Str) : stripWs (a ++ b) = stripWs a ++ stripWs b :=
  List.filter_append a b

theorem stripWs_dropWhile (s : Str) : stripWs (s.dropWhile isWs) = stripWs s := by
  induction s with
  | nil => rfl
  | cons c t ih =>
    by_cases h : isWs c
    · rw [List.dropWhile_cons, if_pos h, ih]
      simp [stripWs, List.filter_cons, h]
    · simp [List.dropWhile_cons, h]

theorem stripWs_reverse (s : Str) : stripWs s.reverse = (stripWs s).reverse := by
  simp [stripWs, List.filter_reverse]

theorem stripWs_jsTrim (s : Str) : stripWs (jsTrim s) = stripWs s := by
  unfold jsTrim
  rw [stripWs_reverse, stripWs_dropWhile, stripWs_reverse, List.reverse_reverse,
    stripWs_dropWhile]

theorem stripWs_eq_nil_of_jsTrim_isEmpty {s : Str} (h : (jsTrim s).isEmpty = true) :
    stripWs s = [] := by
  rw [← stripWs_jsTrim]
  rw [List.isEmpty_iff.mp h]
  rfl

/-! ## C1: chunk lengths of `splitMessageSmart` -/

theorem procParagraph_bounded {maxLength : Nat} {st : SplitState} {p : Str}
    (hm : ∀ m ∈ st.messages, m.length ≤ maxLength)
    (hc : st.current.length ≤ maxLength) (hp : p.length ≤ maxLength) :
    (∀ m ∈ (procParagraph maxLength st p).messages, m.length ≤ maxLength) ∧
      (procParagraph maxLength st p).current.length ≤ maxLength := by
  unfold procParagraph
  rw [if_neg (by omega : ¬ p.length > maxLength)]
  split_ifs with h2 h3 h4
  · refine ⟨?_, hp⟩
    intro m hmem
    rcases List.mem_append.mp hmem with h | h
    · exact hm m h
    · rw [List.mem_singleton.mp h]
      exact le_trans (jsTrim_length_le _) hc
  · refine ⟨?_, hc⟩
    intro m hmem
    rcases List.mem_append.mp hmem with h | h
    · exact hm m h
    · rw [List.mem_singleton.mp h]
      exact hp
  · refine ⟨hm, ?_⟩
    simp only [List.length_append, List.length_cons, List.length_nil] at h2 ⊢
    omega
  · refine ⟨hm, ?_⟩
    simp only [List.length_append, List.length_cons, List.length_nil] at h2 ⊢
    omega

theorem foldl_procParagraph_bounded (maxLength : Nat) (l : List Str) :
    ∀ st : SplitState, (∀ m ∈ st.messages, m.length ≤ maxLength) →
      st.current.length ≤ maxLength → (∀ p ∈ l, p.length ≤ maxLength) →
      (∀ m ∈ (l.foldl (procParagraph maxLength) st).messages, m.length ≤ maxLength) ∧
        (l.foldl (procParagraph maxLength) st).current.length ≤ maxLength := by
  induction l with
  | nil => exact fun st h1 h2 _ => ⟨h1, h2⟩
  | cons p rest ih =>
    intro st h1 h2 hl
    have hp : p.length ≤ maxLength := hl p (List.mem_cons_self _ _)
    have step := procParagraph_bounded h1 h2 hp
    rw [List.foldl_cons]
    exact ih _ step.1 step.2 (fun q hq => hl q (List.mem_cons_of_mem _ hq))

theorem mem_finalMessages {st : SplitState} {m : Str} (h : m ∈ finalMessages st) :
    m ∈ st.messages ∨ m = jsTrim st.current := by
  unfold finalMessages at h
  split_ifs at h with h1
  · rcases List.mem_append.mp h with h2 | h2
    · exact Or.inl h2
    · exact Or.inr (List.mem_singleton.mp h2)
  · exact Or.inl h

/-- C1 counterexample: with `maxLength = 5` and input `"a\n\nbbbbbb"`, the
second paragraph exceeds the limit, its single sentence is carried into the
buffer untruncated (the buffer was non-empty), and the flushed chunk
`"bbbbbb."` has length 7 > 5. -/
theorem splitMessageSmart_chunk_exceeds_max :
    ∃ m ∈ splitMessageSmart ("a\n\nbbbbbb".toList) 5, 5 < m.length := by
  decide

/-- C1 (amended): whenever every blank-line-separated paragraph of the input
is within `maxLength`, every chunk returned by `splitMessageSmart` has length
at most `maxLength`.  (In general a chunk can exceed `maxLength` when an
over-long paragraph contains a sentence that alone exceeds the limit while
the running buffer is non-empty, as the counterexample shows.) -/
theorem splitMessageSmart_bounded (text : Str) (maxLength : Nat)
    (hpara : ∀ p ∈ splitParagraphs text, p.length ≤ maxLength) :
    ∀ m ∈ splitMessageSmart text maxLength, m.length ≤ maxLength := by
  intro m hm
  unfold splitMessageSmart at hm
  by_cases htext : text.length ≤ maxLength
  · rw [if_pos htext] at hm
    rw [List.mem_singleton.mp hm]
    exact htext
  · rw [if_neg htext] at hm
    have hfold := foldl_procParagraph_bounded maxLength (splitParagraphs text)
      ⟨[], []⟩ (by intro m hm'; cases hm') (by simp) hpara
    have hmem := (List.mem_filter.mp hm).1
    rcases mem_finalMessages hmem with h | h
    · exact hfold.1 m h
    · rw [h]
      exact le_trans (jsTrim_length_le _) hfold.2

/-- Witness for C1 (amended) at `"aaa\n\nbbb"` with `maxLength = 5`. -/
theorem splitMessageSmart_bounded_witness :
    (∀ p ∈ splitParagraphs ("aaa\n\nbbb".toList), p.length ≤ 5) ∧
      ∀ m ∈ splitMessageSmart ("aaa\n\nbbb".toList) 5, m.length ≤ 5 :=
  ⟨by decide, splitMessageSmart_bounded _ 5 (by decide)⟩

/-! ## C9: no blank chunks -/

/-- C9 counterexample: the short-circuit branch returns the input verbatim
without the blank filter, so the empty input yields a list containing an
empty chunk. -/
theorem splitMessageSmart_emits_blank_chunk :
    ∃ m ∈ splitMessageSmart ([] : Str) SAFE_MESSAGE_LENGTH, jsTrim m = [] := by
  decide

/-- C9 (amended): whenever the input is strictly longer than `maxLength`
(so the splitting loop actually runs), no returned chunk is empty or
whitespace-only; a whitespace-only input short of the limit is returned
verbatim as the single chunk. -/
theorem splitMessageSmart_no_blank_chunks (text : Str) (maxLength : Nat)
    (h : maxLength < text.length) :
    ∀ m ∈ splitMessageSmart text maxLength, jsTrim m ≠ [] := by
  intro m hm
  unfold splitMessageSmart at hm
  rw [if_neg (by omega)] at hm
  have := (List.mem_filter.mp hm).2
  simp only [Bool.not_eq_true'] at this
  intro hEq
  rw [hEq] at this
  simp at this

/-- Witness for C9 (amended) at `"aaa\n\nbbb"` with `maxLength = 5`. -/
theorem splitMessageSmart_no_blank_chunks_witness :
    5 < ("aaa\n\nbbb".toList).length ∧
      ∀ m ∈ splitMessageSmart ("aaa\n\nbbb".toList) 5, jsTrim m ≠ [] :=
  ⟨by decide, splitMessageSmart_no_blank_chunks _ 5 (by decide)⟩

/-! ## C5: content preservation of `splitMessageSmart` -/

theorem stripWs_cons_ws {c : Char} (h : isWs c = true) (s : Str) :
    stripWs (c :: s) = stripWs s := by
  simp [stripWs, List.filter_cons, h]

theorem stripWs_cons_not_ws {c : Char} (h : isWs c = false) (s : Str) :
    stripWs (c :: s) = c :: stripWs s := by
  simp [stripWs, List.filter_cons, h]

theorem jsTrim_isEmpty_of_not_not {b : Bool} (h : ¬ (!b) = true) : b = true := by
  cases b
  · exact absurd rfl h
  · rfl

theorem procParagraph_stripContent {maxLength : Nat} {st : SplitState} {p : Str}
    (hp : p.length ≤ maxLength) :
    stripContent (procParagraph maxLength st p) = stripContent st ++ stripWs p := by
  unfold procParagraph stripContent
  rw [if_neg (by omega : ¬ p.length > maxLength)]
  split_ifs with h2 h3 h4
  · simp only [List.flatten_append, List.flatten_cons, List.flatten_nil,
      List.append_nil, stripWs_append, stripWs_jsTrim, List.append_assoc]
  · have hcur : stripWs st.current = [] :=
      stripWs_eq_nil_of_jsTrim_isEmpty (jsTrim_isEmpty_of_not_not h3)
    simp only [List.flatten_append, List.flatten_cons, List.flatten_nil,
      List.append_nil, stripWs_append, hcur, List.append_assoc]
  · simp only [stripWs_append, List.append_assoc]
    rfl
  · have hnn : stripWs ['\n', '\n'] = [] := rfl
    simp only [stripWs_append, hnn, List.append_nil, List.nil_append,
      List.append_assoc]

theorem foldl_procParagraph_stripContent (maxLength : Nat) (l : List Str) :
    ∀ st : SplitState, (∀ p ∈ l, p.length ≤ maxLength) →
      stripContent (l.foldl (procParagraph maxLength) st) =
        stripContent st ++ stripWs l.flatten := by
  induction l with
  | nil =>
    intro st _
    simp [stripWs]
  | cons p rest ih =>
    intro st hl
    rw [List.foldl_cons, ih _ (fun q hq => hl q (List.mem_cons_of_mem _ hq)),
      procParagraph_stripContent (hl p (List.mem_cons_self _ _)),
      List.flatten_cons, stripWs_append, List.append_assoc]

theorem finalMessages_stripWs (st : SplitState) :
    stripWs (finalMessages st).flatten = stripContent st := by
  unfold finalMessages stripContent
  split_ifs with h
  · simp [List.flatten_append, stripWs_append, stripWs_jsTrim]
  · have hcur : stripWs st.current = [] :=
      stripWs_eq_nil_of_jsTrim_isEmpty (jsTrim_isEmpty_of_not_not h)
    simp [hcur]

theorem stripWs_flatten_filter (l : List Str) :
    stripWs (l.filter (fun m => !(jsTrim m).isEmpty)).flatten =
      stripWs l.flatten := by
  induction l with
  | nil => rfl
  | cons m rest ih =>
    by_cases h : (jsTrim m).isEmpty
    · have hm : stripWs m = [] := stripWs_eq_nil_of_jsTrim_isEmpty h
      simp [List.filter_cons, h, List.flatten_cons, stripWs_append, hm, ih]
    · simp [List.filter_cons, h, List.flatten_cons, stripWs_append, ih]

theorem splitParagraphs_go_stripWs (acc s : Str) :
    stripWs (splitParagraphs.go acc s).flatten =
      stripWs acc.reverse ++ stripWs s := by
  induction acc, s using splitParagraphs.go.induct with
  | case1 acc rest ih =>
    rw [splitParagraphs.go.eq_1, List.flatten_cons, stripWs_append, ih,
      stripWs_cons_ws (by decide), stripWs_cons_ws (by decide)]
    simp [stripWs]
  | case2 acc c rest hguard ih =>
    rw [splitParagraphs.go.eq_2 _ _ _ hguard, ih, List.reverse_cons,
      stripWs_append]
    by_cases hc : isWs c
    · have h1 : stripWs [c] = [] := by simp [stripWs, List.filter_cons, hc]
      rw [h1, stripWs_cons_ws hc]
      simp
    · have hc' : isWs c = false := by simpa using hc
      have h1 : stripWs [c] = [c] := by simp [stripWs, List.filter_cons, hc']
      rw [h1, stripWs_cons_not_ws hc']
      simp
  | case3 acc =>
    rw [splitParagraphs.go.eq_3]
    simp [stripWs]

theorem splitParagraphs_stripWs (text : Str) :
    stripWs (splitParagraphs text).flatten = stripWs text := by
  unfold splitParagraphs
  rw [splitParagraphs_go_stripWs]
  rfl

/-- C5 counterexample: at `maxLength = 5` the single over-long sentence of
`"abcdefgh"` is hard-truncated to `"ab..."`, so the non-whitespace content of
the concatenated chunks differs from the input's regardless of how the chunks
are rejoined — content is lost. -/
theorem splitMessageSmart_loses_content :
    stripWs (splitMessageSmart ("abcdefgh".toList) 5).flatten ≠
      stripWs ("abcdefgh".toList) := by
  decide

/-- C5 (amended): whenever every blank-line-separated paragraph of the input
is within `maxLength`, the chunks of `splitMessageSmart` preserve the
non-whitespace characters of the input exactly and in order (so rejoining
them with any whitespace separators reproduces the input up to whitespace
normalization).  In general content can be lost: over-long sentences are
hard-truncated with an ellipsis and runs of `.!?` are normalized, as the
counterexample shows. -/
theorem splitMessageSmart_preserves_content (text : Str) (maxLength : Nat)
    (hpara : ∀ p ∈ splitParagraphs text, p.length ≤ maxLength) :
    stripWs (splitMessageSmart text maxLength).flatten = stripWs text := by
  unfold splitMessageSmart
  by_cases htext : text.length ≤ maxLength
  · rw [if_pos htext]
    simp
  · rw [if_neg htext, stripWs_flatten_filter, finalMessages_stripWs,
      foldl_procParagraph_stripContent _ _ _ hpara, splitParagraphs_stripWs]
    rfl

/-- Witness for C5 (amended) at `"aaa\n\nbbb"` with `maxLength = 5`. -/
theorem splitMessageSmart_preserves_content_witness :
    (∀ p ∈ splitParagraphs ("aaa\n\nbbb".toList), p.length ≤ 5) ∧
      stripWs (splitMessageSmart ("aaa\n\nbbb".toList) 5).flatten =
        stripWs ("aaa\n\nbbb".toList) :=
  ⟨by decide, splitMessageSmart_preserves_content _ 5 (by decide)⟩

/-! ## C10: `decodeHTMLEntities` rewrites exactly the entity tokens -/

theorem flatten_map_plain_render (l : Str) :
    (((l.map EntTok.plain).map tokRender)).flatten = l := by
  induction l with
  | nil => rfl
  | cons c t ih =>
    simp only [List.map_cons, List.flatten_cons]
    rw [ih]
    rfl

theorem flatten_map_plain_source (l : Str) :
    (((l.map EntTok.plain).map tokSource)).flatten = l := by
  induction l with
  | nil => rfl
  | cons c t ih =>
    simp only [List.map_cons, List.flatten_cons]
    rw [ih]
    rfl

theorem decode_go_eq_tokens (s : Str) : ∀ mode : Option Str,
    decodeHTMLEntities.go mode s = ((entityTokens.go mode s).map tokRender).flatten := by
  induction s with
  | nil =>
    intro mode
    cases mode with
    | none => rfl
    | some pend =>
      rw [decodeHTMLEntities.go.eq_3, entityTokens.go.eq_3]
      simp only [List.map_cons, List.flatten_cons, flatten_map_plain_render]
      rfl
  | cons c rest ih =>
    intro mode
    cases mode with
    | none =>
      rw [decodeHTMLEntities.go.eq_2, entityTokens.go.eq_2]
      by_cases h : c = '&'
      · rw [if_pos h, if_pos h, ih]
      · rw [if_neg h, if_neg h]
        simp only [List.map_cons, List.flatten_cons, ih]
        rfl
    | some pend =>
      rw [decodeHTMLEntities.go.eq_4, entityTokens.go.eq_4]
      by_cases h1 : isEntChar c = true
      · rw [if_pos h1, if_pos h1, ih]
      · rw [if_neg h1, if_neg h1]
        by_cases h2 : (decide (c = ';') && !pend.isEmpty) = true
        · rw [if_pos h2, if_pos h2]
          simp only [List.map_cons, List.flatten_cons, ih]
          rfl
        · rw [if_neg h2, if_neg h2]
          by_cases h3 : c = '&'
          · rw [if_pos h3, if_pos h3]
            simp only [List.map_cons, List.map_append, List.flatten_cons,
              List.flatten_append, flatten_map_plain_render, ih]
            rfl
          · rw [if_neg h3, if_neg h3]
            simp only [List.map_cons, List.map_append, List.flatten_cons,
              List.flatten_append, flatten_map_plain_render, ih]
            rfl

theorem tokens_go_source (s : Str) : ∀ mode : Option Str,
    ((entityTokens.go mode s).map tokSource).flatten = pendPrefix mode ++ s := by
  induction s with
  | nil =>
    intro mode
    cases mode with
    | none => rfl
    | some pend =>
      rw [entityTokens.go.eq_3]
      simp only [List.map_cons, List.flatten_cons, flatten_map_plain_source]
      simp [tokSource, pendPrefix]
  | cons c rest ih =>
    intro mode
    cases mode with
    | none =>
      rw [entityTokens.go.eq_2]
      by_cases h : c = '&'
      · rw [if_pos h, ih]
        subst h
        rfl
      · rw [if_neg h]
        simp only [List.map_cons, List.flatten_cons, ih]
        rfl
    | some pend =>
      rw [entityTokens.go.eq_4]
      by_cases h1 : isEntChar c = true
      · rw [if_pos h1, ih]
        simp [pendPrefix, List.append_assoc]
      · rw [if_neg h1]
        by_cases h2 : (decide (c = ';') && !pend.isEmpty) = true
        · rw [if_pos h2]
          have hc : c = ';' := by
            simp only [Bool.and_eq_true, decide_eq_true_eq] at h2
            exact h2.1
          subst hc
          simp only [List.map_cons, List.flatten_cons, ih, tokSource]
          simp [pendPrefix, List.append_assoc]
        · rw [if_neg h2]
          by_cases h3 : c = '&'
          · rw [if_pos h3]
            subst h3
            simp only [List.map_cons, List.map_append, List.flatten_cons,
              List.flatten_append, flatten_map_plain_source, ih, tokSource]
            simp [pendPrefix, List.append_assoc]
          · rw [if_neg h3]
            simp only [List.map_cons, List.map_append, List.flatten_cons,
              List.flatten_append, flatten_map_plain_source, ih, tokSource]
            simp [pendPrefix, List.append_assoc]

theorem tokens_go_wf (s : Str) : ∀ mode : Option Str,
    (∀ c ∈ mode.getD [], isEntChar c = true) →
    ∀ t ∈ entityTokens.go mode s, entTokWF t := by
  induction s with
  | nil =>
    intro mode hmode t ht
    cases mode with
    | none => cases ht
    | some pend =>
      rw [entityTokens.go.eq_3] at ht
      rcases List.mem_cons.mp ht with h | h
      · rw [h]; trivial
      · rcases List.mem_map.mp h with ⟨c, _, hc⟩
        rw [← hc]; trivial
  | cons c rest ih =>
    intro mode hmode t ht
    cases mode with
    | none =>
      rw [entityTokens.go.eq_2] at ht
      by_cases h : c = '&'
      · rw [if_pos h] at ht
        exact ih _ (by intro x hx; cases hx) t ht
      · rw [if_neg h] at ht
        rcases List.mem_cons.mp ht with h' | h'
        · rw [h']; trivial
        · exact ih none (by intro x hx; cases hx) t h'
    | some pend =>
      rw [entityTokens.go.eq_4] at ht
      by_cases h1 : isEntChar c = true
      · rw [if_pos h1] at ht
        refine ih _ ?_ t ht
        intro x hx
        rcases List.mem_cons.mp hx with h' | h'
        · rw [h']; exact h1
        · exact hmode x h'
      · rw [if_neg h1] at ht
        by_cases h2 : (decide (c = ';') && !pend.isEmpty) = true
        · rw [if_pos h2] at ht
          rcases List.mem_cons.mp ht with h' | h'
          · rw [h']
            refine ⟨?_, ?_⟩
            · have hne : pend ≠ [] := by
                simp only [Bool.and_eq_true, Bool.not_eq_true',
                  List.isEmpty_eq_false] at h2
                exact h2.2
              simpa using hne
            · intro x hx
              exact hmode x (List.mem_reverse.mp hx)
          · exact ih none (by intro x hx; cases hx) t h'
        · rw [if_neg h2] at ht
          by_cases h3 : c = '&'
          · rw [if_pos h3] at ht
            rcases List.mem_cons.mp ht with h' | h'
            · rw [h']; trivial
            · rcases List.mem_append.mp h' with h'' | h''
              · rcases List.mem_map.mp h'' with ⟨x, _, hx⟩
                rw [← hx]; trivial
              · exact ih _ (by intro x hx; cases hx) t h''
          · rw [if_neg h3] at ht
            rcases List.mem_cons.mp ht with h' | h'
            · rw [h']; trivial
            · rcases List.mem_append.mp h' with h'' | h''
              · rcases List.mem_map.mp h'' with ⟨x, _, hx⟩
                rw [← hx]; trivial
              · rcases List.mem_cons.mp h'' with h3' | h3'
                · rw [h3']; trivial
                · exact ih none (by intro x hx; cases hx) t h3'

/-- C10: `decodeHTMLEntities` is total by construction and acts exactly as
the token-wise replacement of the scan: (1) its output is the rendering of
the token list, where each of the seven table entities renders to its
character and every other token renders to itself; (2) the token sources
partition the input exactly, so all characters outside entity tokens are
preserved verbatim in order; (3) every entity token is a maximal
well-formed `&[#\w]+;` candidate; (4) each of the seven mapped entities
decodes alone to its character; (5) an entity-like sequence outside the
table renders unchanged. -/
theorem decodeHTMLEntities_spec (s : Str) :
    decodeHTMLEntities s = ((entityTokens s).map tokRender).flatten ∧
    ((entityTokens s).map tokSource).flatten = s ∧
    (∀ t ∈ entityTokens s, entTokWF t) ∧
    (∀ e c, (e, c) ∈ entityTable → decodeHTMLEntities e = [c]) ∧
    (∀ name : Str, entityTable.lookup ('&' :: (name ++ [';'])) = none →
      tokRender (.ent name) = '&' :: (name ++ [';'])) := by
  refine ⟨decode_go_eq_tokens s none, tokens_go_source s none, ?_, ?_, ?_⟩
  · exact tokens_go_wf s none (by intro x hx; cases hx)
  · intro e c h
    fin_cases h <;> decide
  · intro name h
    simp only [tokRender, entityLookup, h]

/-- Witness for C10 instantiating the hypotheses of conjuncts (4) and (5)
at `&amp;` and the unmapped name `copy`. -/
theorem decodeHTMLEntities_spec_witness :
    decodeHTMLEntities ("&amp;".toList) = ['&'] ∧
      tokRender (.ent ("copy".toList)) = '&' :: (("copy".toList) ++ [';']) :=
  ⟨(decodeHTMLEntities_spec ("&amp;&copy;".toList)).2.2.2.1 ("&amp;".toList) '&'
      (by decide),
    (decodeHTMLEntities_spec ("&amp;&copy;".toList)).2.2.2.2 ("copy".toList)
      (by decide)⟩

/-! ## C7: `parseRSSItems` is sorted and title-filtered -/

/-- C7: for every input text and any date-parsing oracle, the items returned
by `parseRSSItems` are sorted descending by the key parsed from `pubDate`
(a missing or empty date being the epoch value 0), and every returned item
has a truthy (non-null, nonempty) title. -/
theorem parseRSSItems_sorted_titled (parseDate : Str → Int) (xml : Str) :
    List.Pairwise (fun a b => itemKey parseDate b ≤ itemKey parseDate a)
        (parseRSSItems parseDate xml) ∧
      ∀ it ∈ parseRSSItems parseDate xml, ∃ t, it.title = some t ∧ t ≠ [] := by
  constructor
  · have h := @List.sorted_mergeSort RSSItem
      (fun a b => decide (itemKey parseDate b ≤ itemKey parseDate a))
      (by
        intro a b c hab hbc
        simp only [decide_eq_true_eq] at hab hbc ⊢
        omega)
      (by
        intro a b
        simp only [Bool.or_eq_true, decide_eq_true_eq]
        omega)
      (((itemBlocks xml).map parseRSSItem).filter titleTruthy)
    unfold parseRSSItems
    exact h.imp (fun hab => by simpa using hab)
  · intro it hit
    unfold parseRSSItems at hit
    have hmem : it ∈ ((itemBlocks xml).map parseRSSItem).filter titleTruthy :=
      (List.mergeSort_perm _ _).mem_iff.mp hit
    have htt := (List.mem_filter.mp hmem).2
    unfold titleTruthy at htt
    match hT : it.title with
    | some t =>
      rw [hT] at htt
      simp only [Bool.not_eq_true'] at htt
      exact ⟨t, rfl, List.isEmpty_eq_false.mp htt⟩
    | none => rw [hT] at htt; cases htt

/-- Witness for C7 on a one-item feed: the sortedness conjunct and the
title conjunct instantiated at the parsed item. -/
theorem parseRSSItems_sorted_titled_witness :
    List.Pairwise (fun a b => itemKey (fun _ => (0 : Int)) b ≤
        itemKey (fun _ => (0 : Int)) a)
      (parseRSSItems (fun _ => (0 : Int)) ("<item><title>A</title></item>".toList)) ∧
      ∃ t, (⟨some ("A".toList), none, none, none, none, none⟩ : RSSItem).title =
        some t ∧ t ≠ [] :=
  ⟨(parseRSSItems_sorted_titled (fun _ => (0 : Int))
      ("<item><title>A</title></item>".toList)).1,
    (parseRSSItems_sorted_titled (fun _ => (0 : Int))
      ("<item><title>A</title></item>".toList)).2
      ⟨some ("A".toList), none, none, none, none, none⟩
      ((List.mergeSort_perm _ _).mem_iff.mpr (by decide))⟩

/-! ## C6: sentinel detection and fallback in the rewrite flow -/

theorem retryOperation_ok_mem (l : List (Except GeminiCode Str)) (t : Str)
    (h : retryOperation l = .ok t) : .ok t ∈ l := by
  induction l with
  | nil => cases h
  | cons a rest ih =>
    cases rest with
    | nil =>
      have : a = .ok t := h
      rw [this]
      exact List.mem_singleton_self _
    | cons b rest2 =>
      cases a with
      | ok v =>
        have : Except.ok v = Except.ok t := h
        rw [this] at *
        exact List.mem_cons_self _ _
      | error e =>
        have hb : retryOperation (b :: rest2) = .ok t := h
        exact List.mem_cons_of_mem _ (ih hb)

theorem extractGeminiContent_ok_no_sentinel (r : GemResponse) (t : Str)
    (h : extractGeminiContent r = .ok t) :
    containsCI t sentinel1 = false ∧ containsCI t sentinel2 = false := by
  unfold extractGeminiContent at h
  split at h
  · cases h
  · split at h
    · cases h
    · split at h
      · cases h
      · split_ifs at h with h1 h2
        cases h
        exact ⟨by simpa using h1, by simpa using h2⟩

theorem makeGeminiRequestWithRetry_ok_no_sentinel
    (l : List (Except Str GemResponse)) (t : Str)
    (h : makeGeminiRequestWithRetry l = .ok t) :
    containsCI t sentinel1 = false ∧ containsCI t sentinel2 = false := by
  have hm := retryOperation_ok_mem _ _ h
  rcases List.mem_map.mp hm with ⟨fetch, _, hf⟩
  cases fetch with
  | error e => cases hf
  | ok r =>
    have : extractGeminiContent r = .ok t := hf
    exact extractGeminiContent_ok_no_sentinel r t this

/-- C6: (1) a well-shaped response whose first text part contains the
URL-context sentinel (case-insensitively) is turned into the typed
`URL_CONTEXT_FAIL` error; (2) when the URL-context strategy fails (as it
does on sentinel responses) and the article fetch succeeds, the rewrite
flow is exactly the extraction-fallback strategy; (3) any text the rewrite
flow returns for delivery is free of the sentinel. -/
theorem gemini_sentinel_flow (p : GPart) (ps : List GPart) (rest : List GCandidate)
    (uf ff : List (Except Str GemResponse)) (er : Except Str Str)
    (art t : Str) (e : GeminiCode) :
    (containsCI p.text sentinel1 = true →
      extractGeminiContent ⟨⟨some ⟨p :: ps⟩⟩ :: rest⟩ = .error .URL_CONTEXT_FAIL) ∧
    (makeGeminiRequestWithRetry uf = .error e → er = .ok art →
      rewriteContent uf er ff = makeGeminiRequestWithRetry ff) ∧
    (rewriteContent uf er ff = .ok t → containsCI t sentinel1 = false) := by
  refine ⟨?_, ?_, ?_⟩
  · intro h
    unfold extractGeminiContent
    simp only [if_pos h]
  · intro h1 h2
    unfold rewriteContent
    rw [h1, h2]
  · intro h
    unfold rewriteContent at h
    cases hu : makeGeminiRequestWithRetry uf with
    | ok c =>
      rw [hu] at h
      have : c = t := by injection h
      rw [← this]
      exact (makeGeminiRequestWithRetry_ok_no_sentinel uf c hu).1
    | error eu =>
      rw [hu] at h
      cases er with
      | error _ => cases h
      | ok art' => exact (makeGeminiRequestWithRetry_ok_no_sentinel ff t h).1

/-- Witness for C6: a sentinel-bearing first response makes the flow equal
the fallback strategy whose clean response is what gets delivered. -/
theorem gemini_sentinel_flow_witness :
    extractGeminiContent
        ⟨⟨some ⟨[⟨"x ###ERROR1### y".toList⟩]⟩⟩ :: []⟩ = .error .URL_CONTEXT_FAIL ∧
      rewriteContent [.ok ⟨[⟨some ⟨[⟨"x ###ERROR1### y".toList⟩]⟩⟩]⟩] (.ok [])
          [.ok ⟨[⟨some ⟨[⟨"good".toList⟩]⟩⟩]⟩] =
        makeGeminiRequestWithRetry [.ok ⟨[⟨some ⟨[⟨"good".toList⟩]⟩⟩]⟩] ∧
      containsCI ("good".toList) sentinel1 = false := by
  have T := gemini_sentinel_flow ⟨"x ###ERROR1### y".toList⟩ [] []
    [.ok ⟨[⟨some ⟨[⟨"x ###ERROR1### y".toList⟩]⟩⟩]⟩]
    [.ok ⟨[⟨some ⟨[⟨"good".toList⟩]⟩⟩]⟩] (.ok []) [] ("good".toList)
    .URL_CONTEXT_FAIL
  exact ⟨T.1 (by decide), T.2.1 (by rfl) rfl, T.2.2 (by rfl)⟩

/-! ## C3: `isItemNew` fails open -/

/-- C3: a failing key-value read is caught and reported as `isNew = true`
(the function is total, so no storage behavior makes it throw), and the only
way `isNew` can be `false` is an actual stored record. -/
theorem isItemNew_fail_open :
    (∀ e : Str, (isItemNew (.error e)).isNew = true) ∧
      ∀ r : Except Str (Option StoredRecord), (isItemNew r).isNew = false →
        ∃ rec, r = .ok (some rec) := by
  constructor
  · intro e
    rfl
  · intro r h
    match r with
    | .error e => cases h
    | .ok none => cases h
    | .ok (some rec) => exact ⟨rec, rfl⟩

/-- Witness for C3 at a concrete failing read and a concrete stored record. -/
theorem isItemNew_fail_open_witness :
    (isItemNew (.error ("kv down".toList))).isNew = true ∧
      ∃ rec, (Except.ok (some (⟨[], [], none⟩ : StoredRecord)) :
          Except Str (Option StoredRecord)) = .ok (some rec) :=
  ⟨isItemNew_fail_open.1 ("kv down".toList),
    isItemNew_fail_open.2 (.ok (some ⟨[], [], none⟩)) (by decide)⟩

/-! ## C4 and C8: the delivery loop -/

theorem sendToTelegram_allFail_none : ∀ (fuel : Nat) (msgs : List Str) (k : Nat),
    msgs ≠ [] → sendToTelegramWithRateLimit alwaysFailing fuel msgs k = none := by
  intro fuel
  induction fuel with
  | zero => intro msgs k _; rfl
  | succ fuel ih =>
    intro msgs k hne
    match msgs with
    | [] => exact absurd rfl hne
    | m :: rest =>
      have hf : sendToTelegramWithRateLimit alwaysFailing fuel
          ((m :: rest).map cleanHtmlForDisplay) (k + 1) = none :=
        ih _ _ (by simp)
      simp only [List.map_cons] at hf
      rw [sendToTelegramWithRateLimit.eq_2, sendLoop.eq_2]
      simp [alwaysFailing, hf]

/-- C4: the plain-text degradation fallback is an unguarded recursive
self-call (line 969), so on a stream of persistently failing responses the
delivery call does not terminate for any recursion depth — the fallback is
not limited to a single trigger and the call need not terminate,
contradicting the claim.  The fuel argument counts recursive fallback
entries; `none` at every fuel means the recursion never bottoms out. -/
theorem sendToTelegram_unguarded_divergence :
    ∀ fuel : Nat,
      sendToTelegramWithRateLimit alwaysFailing fuel ["<b>x</b>".toList] 0 = none :=
  fun fuel => sendToTelegram_allFail_none fuel _ 0 (by simp)

theorem sendLoop_indices : ∀ (msgs : List Str)
    (fb : Nat → Option (List DeliveryReport × Nat)) (oc : Nat → TOutcome)
    (i k : Nat) (rs : List DeliveryReport) (kf : Nat),
    sendLoop fb oc msgs i k = some (rs, kf) →
    rs.map DeliveryReport.message_index = List.range' i msgs.length := by
  intro msgs
  induction msgs with
  | nil =>
    intro fb oc i k rs kf h
    rw [sendLoop.eq_1] at h
    injection h with h2
    have hrs : rs = [] := (Prod.ext_iff.mp h2.symm).1
    rw [hrs]
    rfl
  | cons m rest ih =>
    intro fb oc i k rs kf h
    rw [sendLoop.eq_2] at h
    cases hoc : oc k with
    | ok =>
      rw [hoc] at h
      cases hs : sendLoop fb oc rest (i + 1) (k + 1) with
      | none => rw [hs] at h; cases h
      | some p =>
        rcases p with ⟨rs', kf'⟩
        rw [hs] at h
        injection h with h2
        have hrs : rs = ⟨i, .success⟩ :: rs' := (congrArg Prod.fst h2).symm
        rw [hrs, List.length_cons, List.range'_succ, List.map_cons,
          ih fb oc (i + 1) (k + 1) rs' kf' hs]
    | thrown =>
      rw [hoc] at h
      cases hs : sendLoop fb oc rest (i + 1) (k + 1) with
      | none => rw [hs] at h; cases h
      | some p =>
        rcases p with ⟨rs', kf'⟩
        rw [hs] at h
        injection h with h2
        have hrs : rs = ⟨i, .error⟩ :: rs' := (congrArg Prod.fst h2).symm
        rw [hrs, List.length_cons, List.range'_succ, List.map_cons,
          ih fb oc (i + 1) (k + 1) rs' kf' hs]
    | failed b =>
      rw [hoc] at h
      cases hfb : fb (k + 1) with
      | none => rw [hfb] at h; cases h
      | some q =>
        rcases q with ⟨rsMid, kMid⟩
        rw [hfb] at h
        dsimp only at h
        cases hs : sendLoop fb oc rest (i + 1) kMid with
        | none => rw [hs] at h; cases h
        | some p =>
          rcases p with ⟨rs', kf'⟩
          rw [hs] at h
          injection h with h2
          have hrs : rs = ⟨i, .failed⟩ :: rs' := (congrArg Prod.fst h2).symm
          rw [hrs, List.length_cons, List.range'_succ, List.map_cons,
            ih fb oc (i + 1) kMid rs' kf' hs]

/-- C8 (amended): whenever the delivery call terminates, its report list has
exactly one entry per chunk, in original chunk order, carrying the chunk
indices `0, …, n-1` (per-chunk failures and thrown exceptions are recorded
as entries with `failed`/`error` status rather than raised).  As stated the
claim also covers outcome streams on which the unguarded plain-text fallback
recursion never terminates and no report is produced at all. -/
theorem sendToTelegram_reports_complete (oc : Nat → TOutcome) (fuel : Nat)
    (msgs : List Str) (k : Nat) (rs : List DeliveryReport) (kf : Nat)
    (h : sendToTelegramWithRateLimit oc fuel msgs k = some (rs, kf)) :
    rs.length = msgs.length ∧
      rs.map DeliveryReport.message_index = List.range msgs.length := by
  cases fuel with
  | zero => cases h
  | succ fuel =>
    rw [sendToTelegramWithRateLimit.eq_2] at h
    have hidx := sendLoop_indices msgs _ oc 0 k rs kf h
    constructor
    · have hlen := congrArg List.length hidx
      simpa using hlen
    · rw [hidx, List.range_eq_range']

/-- C8 counterexample: on a single-chunk batch whose every send attempt
returns a failing response, the delivery call diverges — it does not return
the one-entry report the claim requires. -/
theorem sendToTelegram_no_report_on_persistent_failure :
    deliveryDiverges ["chunk".toList] alwaysFailing :=
  fun fuel k => sendToTelegram_allFail_none fuel _ k (by simp)

/-- Witness for C8 (amended): a concrete two-chunk all-success run. -/
theorem sendToTelegram_reports_complete_witness :
    ([⟨0, SendStatus.success⟩, ⟨1, SendStatus.success⟩] :
        List DeliveryReport).length = ["a".toList, "b".toList].length ∧
      ([⟨0, SendStatus.success⟩, ⟨1, SendStatus.success⟩] :
          List DeliveryReport).map DeliveryReport.message_index =
        List.range ["a".toList, "b".toList].length :=
  sendToTelegram_reports_complete (fun _ => .ok) 1 _ 0 _ 2 (by decide)

/-! ## C2: marking processed if and only if the result is a success -/

theorem processRSSItem_status (urlValid : Str → Bool) (item : RSSItem)
    (uf : List (Except Str GemResponse)) (er : Except Str Str)
    (ff : List (Except Str GemResponse)) (oc : Nat → TOutcome) (fuel : Nat)
    (res : ProcResult)
    (h : processRSSItem urlValid item uf er ff oc fuel = some res) :
    res.status = true ↔
      validateRSSItem urlValid item = true ∧ ∃ c, rewriteContent uf er ff = .ok c := by
  unfold processRSSItem at h
  by_cases hv : validateRSSItem urlValid item = true
  · rw [if_neg (by simp [hv])] at h
    cases hr : rewriteContent uf er ff with
    | error e =>
      rw [hr] at h
      injection h with h2
      rw [← h2]
      simp [hv]
    | ok c =>
      rw [hr] at h
      dsimp only at h
      cases hs : sendToTelegramWithRateLimit oc fuel (processContent c) 0 with
      | none => rw [hs] at h; cases h
      | some p =>
        rcases p with ⟨reports, kf⟩
        rw [hs] at h
        injection h with h2
        rw [← h2]
        exact ⟨fun _ => ⟨hv, c, rfl⟩, fun _ => rfl⟩
  · rw [if_pos (by simp [Bool.not_eq_true] at hv; simp [hv])] at h
    injection h with h2
    rw [← h2]
    simp [hv]

/-- C2 counterexample: a cycle whose rewrite succeeds but whose only
delivery chunk receives a failing response (the plain-text resend then
succeeds, so the call terminates).  The processing result still has success
status, and the item is written to the dedup store even though delivery of
the content failed — marking does not require successful delivery. -/
theorem handleRSSCheck_marks_despite_failed_delivery :
    handleRSSCheck id []
        (some ⟨some ("T".toList), some ("http://a".toList), none, none, none, none⟩)
        false false (fun _ => true)
        [.ok ⟨[⟨some ⟨[⟨"<b>hi</b>".toList⟩]⟩⟩]⟩] (.ok []) []
        (fun k => if k = 0 then .failed false else .ok) 2 [] =
      some (.processed ⟨true, some [⟨0, .failed⟩], some ("<b>hi</b>".toList)⟩,
        [(storeKey ("http://a".toList),
          ⟨[], "http://a".toList, some ("<b>hi</b>".toList)⟩)]) ∧
      (⟨0, SendStatus.failed⟩ : DeliveryReport) ∈ [(⟨0, SendStatus.failed⟩ : DeliveryReport)] ∧
      (([(storeKey ("http://a".toList),
          (⟨[], "http://a".toList, some ("<b>hi</b>".toList)⟩ : StoredRecord))] :
        Store).lookup (storeKey ("http://a".toList))).isSome = true := by
  refine ⟨by decide, by decide, by decide⟩

/-- C2 (amended): on a new item (no store entry) with a working store write,
the dedup store is written if and only if the result status is success; the
status is success exactly when validation and the two-strategy rewrite
succeed and the delivery call returns — per-chunk delivery failures do not
affect it; an error result leaves the store without an entry for the item,
so the next cycle sees it as new. -/
theorem handleRSSCheck_mark_iff_success (btoaLike : Str → Str) (now : Str)
    (item : RSSItem) (urlValid : Str → Bool)
    (uf : List (Except Str GemResponse)) (er : Except Str Str)
    (ff : List (Except Str GemResponse)) (oc : Nat → TOutcome) (fuel : Nat)
    (store : Store) (result : ProcResult) (st2 : Store)
    (hread : store.lookup (storeKey (deriveItemId btoaLike item)) = none)
    (h : handleRSSCheck btoaLike now (some item) false false urlValid uf er ff
        oc fuel store = some (.processed result, st2)) :
    (result.status = true ↔
      validateRSSItem urlValid item = true ∧ ∃ c, rewriteContent uf er ff = .ok c) ∧
    (result.status = true →
      st2 = markItemAsProcessed now (deriveItemId btoaLike item)
        result.gemini_output false store) ∧
    (result.status = false → st2 = store) ∧
    (result.status = false →
      st2.lookup (storeKey (deriveItemId btoaLike item)) = none) := by
  unfold handleRSSCheck at h
  dsimp only at h
  rw [hread] at h
  simp only [isItemNew] at h
  cases hp : processRSSItem urlValid item uf er ff oc fuel with
  | none => rw [hp] at h; cases h
  | some res =>
    rw [hp] at h
    simp only [Bool.not_true, Bool.false_eq_true, if_false] at h
    injection h with h2
    have hres : res = result := by
      have := congrArg Prod.fst h2
      simpa using this
    have hst : st2 = if result.status then
        markItemAsProcessed now (deriveItemId btoaLike item) result.gemini_output
          false store
      else store := by
      have := congrArg Prod.snd h2
      simp only at this
      rw [← this, hres]
    refine ⟨?_, ?_, ?_, ?_⟩
    · rw [← hres]
      exact processRSSItem_status urlValid item uf er ff oc fuel res hp
    · intro hs
      rw [hst, if_pos hs]
    · intro hs
      rw [hst, hs]
      rfl
    · intro hs
      rw [hst, hs, if_neg (by decide : ¬ (false = true))]
      exact hread

/-- Witness for C2 (amended): a failing rewrite yields an error result and
leaves the store unchanged and unmarked. -/
theorem handleRSSCheck_mark_iff_success_witness :
    ((⟨false, none, none⟩ : ProcResult).status = true ↔
      validateRSSItem (fun _ => true)
          (⟨some ("T".toList), some ("http://a".toList), none, none, none, none⟩ : RSSItem) = true ∧
        ∃ c, rewriteContent [.error ("down".toList)] (.error ("x".toList)) [] = .ok c) ∧
    ((⟨false, none, none⟩ : ProcResult).status = true →
      ([] : Store) = markItemAsProcessed [] (deriveItemId id
        (⟨some ("T".toList), some ("http://a".toList), none, none, none, none⟩ : RSSItem))
        (⟨false, none, none⟩ : ProcResult).gemini_output false []) ∧
    ((⟨false, none, none⟩ : ProcResult).status = false → ([] : Store) = []) ∧
    ((⟨false, none, none⟩ : ProcResult).status = false →
      (([] : Store).lookup (storeKey (deriveItemId id
        (⟨some ("T".toList), some ("http://a".toList), none, none, none, none⟩ : RSSItem)))) = none) :=
  handleRSSCheck_mark_iff_success id []
    (⟨some ("T".toList), some ("http://a".toList), none, none, none, none⟩ : RSSItem)
    (fun _ => true) [.error ("down".toList)] (.error ("x".toList)) []
    (fun _ => .ok) 1 [] (⟨false, none, none⟩ : ProcResult) []
    (by decide) (by decide)

end RSSWorker
